import Mathlib

/-!
Verification development for the two text-processing utilities of this
repository: the heading slug generator (src/site/src/ext/slugs.py) and the
markdown shortcode expander (src/site/overrides/hooks/shortcodes.py).

Strings are modelled as lists of Unicode characters (List Char).  The Python
regular expressions involved use only single-character classes and simple
literal scanning, so they are translated into direct structural scans over
the character list.  Character classes are modelled at the ASCII level:
Python (with re.UNICODE) additionally lets non-ASCII alphanumerics into
backslash-w, non-ASCII digits into backslash-d and non-ASCII spaces into
backslash-s; every concrete input settled here is ASCII, where the two
readings coincide.  The replacement string of re.sub is modelled literally
(Python would additionally expand backslash escapes inside the replacement;
the separators considered here are backslash-free).
-/

namespace NextestSite

/-- Characters of a Lean string literal, the basic way to write concrete
inputs for the model. -/
def str (s : String) : List Char := s.data

/-- Single apostrophe character (U+0027), used by the badge markup. -/
def sq : List Char := [Char.ofNat 39]

/-- Model of a Python exception as far as this code can raise one:
RuntimeError with a message, ValueError (unpacking or empty split
separator), AttributeError (attribute access on None). -/
inductive PyErr where
  | runtimeError : List Char → PyErr
  | valueError : PyErr
  | attributeError : PyErr
deriving DecidableEq

/-- Model of the regex class backslash-w of RE_INVALID_SLUG_CHAR and of the
shortcode pattern: ASCII letters, digits and underscore. -/
def isWordChar (c : Char) : Bool :=
  decide (48 ≤ c.toNat ∧ c.toNat ≤ 57) ||
  decide (65 ≤ c.toNat ∧ c.toNat ≤ 90) ||
  decide (97 ≤ c.toNat ∧ c.toNat ≤ 122) ||
  c = '_'

/-- Model of the regex class backslash-d: ASCII decimal digits. -/
def pyIsDigit (c : Char) : Bool :=
  decide (48 ≤ c.toNat ∧ c.toNat ≤ 57)

/-- Model of the regex class backslash-s and of the characters removed by
str.strip: ASCII whitespace. -/
def pyIsSpace (c : Char) : Bool :=
  c = ' ' || c = '\t' || c = '\n' || c = '\x0b' || c = '\x0c' || c = '\r'

/-- Model of str.lower on one character: ASCII case mapping. -/
def pyLowerChar (c : Char) : Char :=
  if 65 ≤ c.toNat ∧ c.toNat ≤ 90 then Char.ofNat (c.toNat + 32) else c

/-- Model of str.lower. -/
def pyLower (s : List Char) : List Char := s.map pyLowerChar

/-- Model of str.strip with no argument: drop leading and trailing
whitespace. -/
def pyStrip (s : List Char) : List Char :=
  ((s.dropWhile pyIsSpace).reverse.dropWhile pyIsSpace).reverse

/-- Model of RE_WHITESPACE.sub(sep, s) in _make_slug: every single
whitespace character is replaced by one copy of the separator. -/
def subWhitespace (sep : List Char) : List Char → List Char
  | [] => []
  | c :: rest => (if pyIsSpace c then sep else [c]) ++ subWhitespace sep rest

/-- Combining acute accent U+0301. -/
def chAcute : Char := Char.ofNat 769

/-- Combining grave accent U+0300. -/
def chGrave : Char := Char.ofNat 768

/-- Combining tilde U+0303. -/
def chTilde : Char := Char.ofNat 771

/-- Modelled fragment of the Unicode canonical composition table used by
unicodedata.normalize("NFC", ...): composition of common ASCII base letters
with the combining acute, grave and tilde accents.  True NFC is the
identity on strings free of combining marks and decomposable sequences,
which this model reproduces; inputs in scope here are of that shape. -/
def composePair (a b : Char) : Option Char :=
  if b = chAcute then
    if a = 'a' then some (Char.ofNat 225)
    else if a = 'e' then some (Char.ofNat 233)
    else if a = 'i' then some (Char.ofNat 237)
    else if a = 'o' then some (Char.ofNat 243)
    else if a = 'u' then some (Char.ofNat 250)
    else none
  else if b = chGrave then
    if a = 'a' then some (Char.ofNat 224)
    else if a = 'e' then some (Char.ofNat 232)
    else if a = 'i' then some (Char.ofNat 236)
    else if a = 'o' then some (Char.ofNat 242)
    else if a = 'u' then some (Char.ofNat 249)
    else none
  else if b = chTilde then
    if a = 'n' then some (Char.ofNat 241)
    else if a = 'a' then some (Char.ofNat 227)
    else if a = 'o' then some (Char.ofNat 245)
    else none
  else none

/-- Greedy left-to-right canonical composition pass, the working core of
the NFC model: the pending character is composed with the next one when
the table allows it. -/
def nfcAux : Char → List Char → List Char
  | a, [] => [a]
  | a, b :: rest =>
    match composePair a b with
    | some c => nfcAux c rest
    | none => a :: nfcAux b rest

/-- Model of unicodedata.normalize("NFC", text). -/
def nfc : List Char → List Char
  | [] => []
  | a :: rest => nfcAux a rest

/-- Consume characters up to and including the first close angle bracket,
returning the remainder; none when there is no close bracket.  This is the
extent of one match of RE_HTML_TAGS. -/
def dropTag : List Char → Option (List Char)
  | [] => none
  | c :: rest => if c = '>' then some rest else dropTag rest

/-- Fuelled scan of RE_HTML_TAGS.sub("", s): from each open angle bracket
the text through the next close bracket is removed; an open bracket with no
later close bracket is kept.  Fuel at least the length of the list is
always sufficient. -/
def removeTagsF : Nat → List Char → List Char
  | 0, s => s
  | _ + 1, [] => []
  | f + 1, c :: rest =>
    if c = '<' then
      match dropTag rest with
      | some after => removeTagsF f after
      | none => c :: removeTagsF f rest
    else c :: removeTagsF f rest

/-- Model of RE_HTML_TAGS.sub("", s). -/
def removeTags (s : List Char) : List Char := removeTagsF s.length s

/-- Characters kept by RE_INVALID_SLUG_CHAR.sub("", s): word characters,
hyphen, space. -/
def keepSlugChar (c : Char) : Bool := isWordChar c || c = '-' || c = ' '

/-- Ten-character date tail of the changelog regex: four digits, hyphen,
two digits, hyphen, two digits. -/
def isDate10 : List Char → Bool
  | a :: b :: c :: d :: e :: f :: g :: h :: i :: j :: _ =>
    pyIsDigit a && pyIsDigit b && pyIsDigit c && pyIsDigit d &&
    e = '-' && pyIsDigit f && pyIsDigit g && h = '-' && pyIsDigit i && pyIsDigit j
  | _ => false

/-- Whether the list begins with the picture space, hyphen, space, then a
ten-character date: the non-group part of the changelog regex. -/
def isDateStart : List Char → Bool
  | x :: y :: z :: rest => x = ' ' && y = '-' && z = ' ' && isDate10 rest
  | _ => false

/-- Scan of the lazy anchored match re.match(r"(.*?) - ...date...", text):
the shortest prefix (accumulated reversed in acc) after which the date
picture starts; the prefix may not contain a newline since the dot of the
pattern does not match one. -/
def changelogScan : List Char → List Char → Option (List Char)
  | _, [] => none
  | acc, c :: rest =>
    if isDateStart (c :: rest) then some acc.reverse
    else if c = '\n' then none
    else changelogScan (c :: acc) rest

/-- Model of the changelog-heading regex match in _make_slug: some group-1
text when the text matches, none otherwise. -/
def changelogMatch (s : List Char) : Option (List Char) := changelogScan [] s

/-- Model of _make_slug in src/site/src/ext/slugs.py: changelog special
case, else normalize, strip tag-like substrings, drop invalid characters,
strip, lower, and replace each whitespace character by the separator. -/
def _make_slug (text sep : List Char) : List Char :=
  match changelogMatch text with
  | some title => pyStrip title
  | none =>
    subWhitespace sep (pyLower (pyStrip ((removeTags (nfc text)).filter keepSlugChar)))

/-- Whether sep occurs at the head of the list. -/
def listStarts : List Char → List Char → Bool
  | [], _ => true
  | _ :: _, [] => false
  | a :: as, b :: bs => a = b && listStarts as bs

/-- Fuelled model of str.split(sep) for a nonempty separator: leftmost
nonoverlapping splitting.  Fuel at least the length of the list is always
sufficient since every step consumes at least one character. -/
def splitF (sep : List Char) : Nat → List Char → List Char → List (List Char)
  | 0, acc, s => [acc.reverse ++ s]
  | _ + 1, acc, [] => [acc.reverse]
  | f + 1, acc, c :: rest =>
    if listStarts sep (c :: rest) then
      acc.reverse :: splitF sep f [] ((c :: rest).drop sep.length)
    else splitF sep f (c :: acc) rest

/-- Model of str.split(sep): Python raises ValueError on an empty
separator, hence the Option. -/
def pySplit (s sep : List Char) : Option (List (List Char)) :=
  if sep = [] then none else some (splitF sep s.length [] s)

/-- Model of _make_slug_short: the full slug is split on the separator, the
first five words are kept and rejoined.  The Except records the ValueError
str.split raises on an empty separator. -/
def _make_slug_short (text sep : List Char) : Except PyErr (List Char) :=
  match pySplit (_make_slug text sep) sep with
  | none => .error .valueError
  | some words => .ok (List.intercalate sep (words.take 5))

/-- Helper for the run-collapsing reading of the specification: when inRun
is true the previous character was whitespace, so further whitespace adds
nothing. -/
def collapseRunsAux (sep : List Char) : Bool → List Char → List Char
  | _, [] => []
  | inRun, c :: rest =>
    if pyIsSpace c then (if inRun then [] else sep) ++ collapseRunsAux sep true rest
    else c :: collapseRunsAux sep false rest

/-- Replacement of every maximal run of whitespace by a single copy of the
separator, as the specification words it. -/
def collapseRuns (sep s : List Char) : List Char := collapseRunsAux sep false s

/-- Slug pipeline exactly as the specification sentence for claim C1 words
it: normalize, strip tags, drop invalid characters, strip, lower, then
replace every run of whitespace by one copy of the separator. -/
def slugSpecRuns (text sep : List Char) : List Char :=
  collapseRuns sep (pyLower (pyStrip ((removeTags (nfc text)).filter keepSlugChar)))

/-- Slug pipeline with the amended final step: every single whitespace
character is replaced by one copy of the separator. -/
def slugSpecEachChar (text sep : List Char) : List Char :=
  subWhitespace sep (pyLower (pyStrip ((removeTags (nfc text)).filter keepSlugChar)))

/-- Short slug as the specification words it: the first five
separator-delimited words of the full slug, rejoined with the separator. -/
def shortSpec (text sep : List Char) : List Char :=
  List.intercalate sep
    ((splitF sep (_make_slug text sep).length [] (_make_slug text sep)).take 5)

/-- Host file object as far as this code touches it: its source path. -/
structure File where
  src_uri : List Char
deriving DecidableEq

/-- Host page object as far as this code touches it: the file it renders. -/
structure Page where
  file : File
deriving DecidableEq

/-- Host file collection as far as this code touches it: lookup of a file
by its logical path, None when absent. -/
structure Files where
  get_file_from_path : List Char → Option File

/-- Model of re.split with a single-character class: the list is cut at
every character satisfying p; adjacent delimiters produce empty pieces and
the result is never empty. -/
def resplit (p : Char → Bool) : List Char → List (List Char)
  | [] => [[]]
  | c :: rest =>
    if p c then [] :: resplit p rest
    else
      match resplit p rest with
      | w :: ws => (c :: w) :: ws
      | [] => [[c]]

/-- Model of str.split("/"). -/
def splitSlash (s : List Char) : List (List Char) := resplit (fun c => c = '/') s

/-- Components of a relative POSIX path: empty pieces and single dots are
dropped, as in the component lists posixpath.relpath builds. -/
def pathParts (s : List Char) : List (List Char) :=
  (splitSlash s).filter (fun x => !x.isEmpty && !(x = str "."))

/-- Length of the common component run, as commonprefix computes it over
the two component lists. -/
def commonLen : List (List Char) → List (List Char) → Nat
  | a :: as, b :: bs => if a = b then commonLen as bs + 1 else 0
  | _, _ => 0

/-- Model of posixpath.relpath(path, start) for the relative, dotless,
parent-free source paths the host hands this code (both arguments are
joined below a common working directory whose components cancel): climb
out of the unshared start components, then descend into path. -/
def relpath (path start : List Char) : List Char :=
  let p := pathParts path
  let st := pathParts start
  let i := commonLen st p
  let res := List.replicate (st.length - i) (str "..") ++ p.drop i
  if res = [] then str "." else List.intercalate (str "/") res

/-- Model of _resolve: the path of file relative to the page, with the
first segment of the computed relative path always discarded. -/
def _resolve (file : File) (page : Page) : List Char :=
  List.intercalate (str "/")
    ((splitSlash (relpath file.src_uri page.file.src_uri)).drop 1)

/-- Model of _resolve_path: append a hash, split on hashes, take the first
piece as the path and the second as the anchor, resolve the path through
the file collection (attribute access on a missing file raises), and
reattach a nonempty anchor. -/
def _resolve_path (path : List Char) (page : Page) (files : Files) :
    Except PyErr (List Char) :=
  let parts := resplit (fun c => c = '#') (path ++ ['#'])
  let p := parts.headD []
  let anchor := (parts.drop 1).headD []
  match files.get_file_from_path p with
  | none => .error .attributeError
  | some f =>
    .ok (if anchor = [] then _resolve f page else _resolve f page ++ '#' :: anchor)

/-- Model of _badge: a container span with an optional modifier class,
holding an icon span when the icon is nonempty and a text span when the
text is nonempty. -/
def _badge (icon text type_ : List Char) : List Char :=
  (str "<span class=\"" ++
    (if type_ = [] then str "mdx-badge" else str "mdx-badge mdx-badge--" ++ type_) ++
    str "\">") ++
  (if icon = [] then [] else str "<span class=\"mdx-badge__icon\">" ++ icon ++ str "</span>") ++
  (if text = [] then [] else str "<span class=\"mdx-badge__text\">" ++ text ++ str "</span>") ++
  str "</span>"

/-- Model of _badge_for_version: the badge links to the changelog anchor
named by the version text; an empty version produces no text span and in
particular never consults the file collection. -/
def _badge_for_version (text : List Char) (page : Page) (files : Files) :
    Except PyErr (List Char) :=
  let icon := str "[:material-tag-outline:](" ++ sq ++ str "Minimum nextest version" ++ sq ++ str ")"
  if text = [] then .ok (_badge icon [] [])
  else
    match _resolve_path (str "changelog.md#" ++ text) page files with
    | .error e => .error e
    | .ok r => .ok (_badge icon (str "[" ++ text ++ str "](" ++ r ++ str ")") [])

/-- Model of _badge_for_metadata. -/
def _badge_for_metadata (page : Page) (files : Files) : Except PyErr (List Char) :=
  match _resolve_path (str "conventions.md#metadata") page files with
  | .error e => .error e
  | .ok href =>
    .ok (_badge (str "[:material-list-box-outline:](" ++ href ++ str " " ++ sq ++
      str "Metadata property" ++ sq ++ str ")") [] [])

/-- Model of _badge_for_required. -/
def _badge_for_required (page : Page) (files : Files) : Except PyErr (List Char) :=
  match _resolve_path (str "conventions.md#required") page files with
  | .error e => .error e
  | .ok href =>
    .ok (_badge (str "[:material-alert:](" ++ href ++ str " " ++ sq ++
      str "Required value" ++ sq ++ str ")") [] [])

/-- Model of _badge_for_customization. -/
def _badge_for_customization (page : Page) (files : Files) : Except PyErr (List Char) :=
  match _resolve_path (str "conventions.md#customization") page files with
  | .error e => .error e
  | .ok href =>
    .ok (_badge (str "[:material-brush-variant:](" ++ href ++ str " " ++ sq ++
      str "Customization" ++ sq ++ str ")") [] [])

/-- Model of _badge_for_multiple. -/
def _badge_for_multiple (page : Page) (files : Files) : Except PyErr (List Char) :=
  match _resolve_path (str "conventions.md#multiple-instances") page files with
  | .error e => .error e
  | .ok href =>
    .ok (_badge (str "[:material-inbox-multiple:](" ++ href ++ str " " ++ sq ++
      str "Multiple instances" ++ sq ++ str ")") [] [])

/-- Model of _badge_for_experimental: icon only, no link. -/
def _badge_for_experimental (_page : Page) (_files : Files) : Except PyErr (List Char) :=
  .ok (_badge (str ":material-flask-outline:") [] [])

/-- Model of the flag helper: the first space-delimited token of the
arguments selects the badge; an unknown token raises RuntimeError. -/
def flag (args : List Char) (page : Page) (files : Files) : Except PyErr (List Char) :=
  let type_ := args.takeWhile (fun c => c ≠ ' ')
  if type_ = str "experimental" then _badge_for_experimental page files
  else if type_ = str "required" then _badge_for_required page files
  else if type_ = str "customization" then _badge_for_customization page files
  else if type_ = str "metadata" then _badge_for_metadata page files
  else if type_ = str "multiple" then _badge_for_multiple page files
  else .error (.runtimeError (str "Unknown type: " ++ type_))

/-- Delimiters of the option path: dot and colon. -/
def isOptionDelim (c : Char) : Bool := c = '.' || c = ':'

/-- Delimiters of the setting path: dot and asterisk. -/
def isSettingDelim (c : Char) : Bool := c = '.' || c = '*'

/-- Model of the option helper: the Python starred unpacking of the split
demands at least two pieces, so an argument with no dot and no colon
raises ValueError; otherwise the last piece becomes the display name. -/
def option (type_ : List Char) : Except PyErr (List Char) :=
  match (resplit isOptionDelim type_).reverse with
  | name :: _ :: _ =>
    .ok (str "[`" ++ name ++ str "`](#+" ++ type_ ++ str ")\x7b #+" ++ type_ ++ str " \x7d\n\n")
  | _ => .error .valueError

/-- Model of the setting helper: as for option, an argument with no dot
and no asterisk raises ValueError on unpacking. -/
def setting (type_ : List Char) : Except PyErr (List Char) :=
  match (resplit isSettingDelim type_).reverse with
  | name :: _ :: _ =>
    .ok (str "`" ++ name ++ str "` \x7b #" ++ type_ ++ str " \x7d\n\n[" ++ type_ ++
      str "]: #" ++ type_ ++ str "\n\n")
  | _ => .error .valueError

/-- Model of the replace callback of on_page_markdown: the arguments are
stripped, then the tag text (in its original case) is dispatched; an
unknown tag raises RuntimeError. -/
def replace (page : Page) (files : Files) (type_ args0 : List Char) :
    Except PyErr (List Char) :=
  let args := pyStrip args0
  if type_ = str "version" then _badge_for_version args page files
  else if type_ = str "flag" then flag args page files
  else if type_ = str "option" then option args
  else if type_ = str "setting" then setting args
  else .error (.runtimeError (str "Unknown shortcode: " ++ type_))

/-- One regex match of the shortcode pattern: the full matched text, the
captured tag and the captured raw arguments. -/
structure SMatch where
  raw : List Char
  tag : List Char
  args : List Char
deriving DecidableEq

/-- Whether the list opens with the shortcode header, the literal open
comment followed by md and a colon, with the two letters matched in either
case as the IGNORECASE flag of the pattern allows. -/
def headerMD : List Char → Bool
  | '<' :: '!' :: '-' :: '-' :: ' ' :: m :: d :: ':' :: _ =>
    (m = 'm' || m = 'M') && (d = 'd' || d = 'D')
  | _ => false

/-- Scan of the lazy tail of the shortcode pattern: the shortest extent of
characters (none of them a newline, since the dot excludes it) up to the
literal space and close comment, with the remainder after the match. -/
def findClose : List Char → Option (List Char × List Char)
  | [] => none
  | c :: rest =>
    if c = ' ' && listStarts (str "-->") rest then some ([], rest.drop 3)
    else if c = '\n' then none
    else
      match findClose rest with
      | some (args, r) => some (c :: args, r)
      | none => none

/-- Attempt of the shortcode regex at the head of the list: the header,
then a nonempty greedy run of word characters (the tag), then the lazy
arguments up to the close comment. -/
def matchShortcodeAt (s : List Char) : Option (SMatch × List Char) :=
  if headerMD s then
    let tagRun := (s.drop 8).takeWhile isWordChar
    if tagRun = [] then none
    else
      match findClose ((s.drop 8).dropWhile isWordChar) with
      | some (args, rest) =>
        some (⟨s.take 8 ++ tagRun ++ args ++ str " -->", tagRun, args⟩, rest)
      | none => none
  else none

/-- Leftmost match of the shortcode regex: the text before the match, the
match, and the text after it. -/
def firstMatch : List Char → Option (List Char × SMatch × List Char)
  | [] => none
  | c :: rest =>
    match matchShortcodeAt (c :: rest) with
    | some (m, after) => some ([], m, after)
    | none =>
      match firstMatch rest with
      | some (pre, m, after) => some (c :: pre, m, after)
      | none => none

/-- Fuelled model of re.sub with the replace callback: the leftmost match
is replaced (a raising callback aborts the whole substitution) and
scanning resumes after it; replacement text is not rescanned.  Fuel at
least the length of the list is always sufficient. -/
def expandF (page : Page) (files : Files) : Nat → List Char → Except PyErr (List Char)
  | 0, s => .ok s
  | f + 1, s =>
    match firstMatch s with
    | none => .ok s
    | some (pre, m, rest) =>
      match replace page files m.tag m.args with
      | .error e => .error e
      | .ok rep =>
        match expandF page files f rest with
        | .error e => .error e
        | .ok out => .ok (pre ++ rep ++ out)

/-- Model of on_page_markdown in src/site/overrides/hooks/shortcodes.py
(the unused config parameter is omitted): every shortcode comment in the
page markdown is replaced through the dispatch callback. -/
def on_page_markdown (markdown : List Char) (page : Page) (files : Files) :
    Except PyErr (List Char) :=
  expandF page files markdown.length markdown

/-- Fuelled decomposition of a page into the nonmatching gaps and the
matches, in order, with the trailing gap last; the companion of expandF
used to state frame properties. -/
def decompF : Nat → List Char → List (List Char × SMatch) × List Char
  | 0, s => ([], s)
  | f + 1, s =>
    match firstMatch s with
    | none => ([], s)
    | some (pre, m, rest) =>
      ((pre, m) :: (decompF f rest).1, (decompF f rest).2)

/-- Decomposition of a page into gaps, matches and the trailing gap. -/
def decomp (s : List Char) : List (List Char × SMatch) × List Char :=
  decompF s.length s

/-- Replacement of one decomposed piece: the gap followed by the markup
the dispatch produces for the match. -/
def replacePiece (page : Page) (files : Files) (pm : List Char × SMatch) :
    Except PyErr (List Char) :=
  match replace page files pm.2.tag pm.2.args with
  | .error e => .error e
  | .ok r => .ok (pm.1 ++ r)

/-- Error-propagating map, the shape of processing all decomposed pieces
left to right: the first raising piece aborts the whole list. -/
def mapExcept (f : α → Except PyErr β) : List α → Except PyErr (List β)
  | [] => .ok []
  | a :: as =>
    match f a with
    | .error e => .error e
    | .ok b =>
      match mapExcept f as with
      | .error e => .error e
      | .ok bs => .ok (b :: bs)

/-- Whether the tag text is one of the four dispatched tags, spelled
exactly as the dispatch compares them. -/
def isKnownTag (w : List Char) : Bool :=
  w = str "version" || w = str "flag" || w = str "option" || w = str "setting"

/-- Whether the flag subtype token is one of the five dispatched
subtypes. -/
def isKnownFlagType (w : List Char) : Bool :=
  w = str "experimental" || w = str "required" || w = str "customization" ||
  w = str "metadata" || w = str "multiple"

/-- Markup the option helper produces when its unpacking succeeds. -/
def optionMarkup (type_ : List Char) : List Char :=
  str "[`" ++ ((resplit isOptionDelim type_).reverse.headD []) ++ str "`](#+" ++ type_ ++
    str ")\x7b #+" ++ type_ ++ str " \x7d\n\n"

/-- Markup the setting helper produces when its unpacking succeeds. -/
def settingMarkup (type_ : List Char) : List Char :=
  str "`" ++ ((resplit isSettingDelim type_).reverse.headD []) ++ str "` \x7b #" ++ type_ ++
    str " \x7d\n\n[" ++ type_ ++ str "]: #" ++ type_ ++ str "\n\n"

/-- Concrete changelog file of the sample site context. -/
def file_changelog : File := ⟨str "changelog.md"⟩

/-- Concrete conventions file of the sample site context. -/
def file_conventions : File := ⟨str "conventions.md"⟩

/-- Concrete page of the sample site context: the site root index. -/
def page0 : Page := ⟨⟨str "index.md"⟩⟩

/-- Concrete file collection of the sample site context. -/
def files0 : Files :=
  ⟨fun p =>
    if p = str "changelog.md" then some file_changelog
    else if p = str "conventions.md" then some file_conventions
    else none⟩

/-! ### Concrete sanity checks of the model against the Python functions -/

example : _make_slug (str "Hello, World! 123") (str "-") = str "hello-world-123" := rfl
example : _make_slug (str "Release Notes - 2024-01-15") (str "-") = str "Release Notes" := rfl
example : _make_slug (str "a  b") (str "-") = str "a--b" := rfl
example : slugSpecRuns (str "a  b") (str "-") = str "a-b" := rfl
example : _make_slug_short (str "one two three four five six seven") (str "-")
    = .ok (str "one-two-three-four-five") := rfl
example : _make_slug_short (str "one two") [] = .error .valueError := rfl
example : _make_slug (str "Release - 2024-01-15 beta") (str "-") = str "Release" := rfl
example : _make_slug (str "a<b>c</b>d") (str "-") = str "acd" := rfl
example : _make_slug (str "a b") (str "!") = str "a!b" := rfl
example : _make_slug (str "a!b") (str "!") = str "ab" := rfl

example : on_page_markdown (str "<!-- md:flag experimental -->") page0 files0
    = .ok (str "<span class=\"mdx-badge\"><span class=\"mdx-badge__icon\">:material-flask-outline:</span></span>") := rfl
example : on_page_markdown (str "<!-- md:option foo -->") page0 files0 = .error .valueError := rfl
example : on_page_markdown (str "<!-- md:VERSION 1.0 -->") page0 files0
    = .error (.runtimeError (str "Unknown shortcode: VERSION")) := rfl
example : on_page_markdown (str "a <!-- md:unknowntag foo --> b") page0 files0
    = .error (.runtimeError (str "Unknown shortcode: unknowntag")) := rfl
example : _resolve_path (str "changelog.md#0.9.0") page0 files0 = .ok (str "changelog.md#0.9.0") := rfl
example : _resolve file_changelog ⟨⟨str "guide/index.md"⟩⟩ = str "../changelog.md" := rfl
example : on_page_markdown (str "<!-- md:version 0.9.0 -->") page0 files0
    = .ok (str "<span class=\"mdx-badge\"><span class=\"mdx-badge__icon\">[:material-tag-outline:](" ++ sq ++
        str "Minimum nextest version" ++ sq ++
        str ")</span><span class=\"mdx-badge__text\">[0.9.0](changelog.md#0.9.0)</span></span>") := rfl
example : on_page_markdown (str "<!-- md:version -->") page0 files0
    = .ok (str "<span class=\"mdx-badge\"><span class=\"mdx-badge__icon\">[:material-tag-outline:](" ++ sq ++
        str "Minimum nextest version" ++ sq ++ str ")</span></span>") := rfl
example : on_page_markdown (str "<!-- md:setting a.b.c -->") page0 files0
    = .ok (str "`c` \x7b #a.b.c \x7d\n\n[a.b.c]: #a.b.c\n\n") := rfl
example : on_page_markdown (str "<!-- md:option x.y -->") page0 files0
    = .ok (str "[`y`](#+x.y)\x7b #+x.y \x7d\n\n") := rfl
example : on_page_markdown (str "<!-- md:flag bogus extra -->") page0 files0
    = .error (.runtimeError (str "Unknown type: bogus")) := rfl

/-! ### Character-level facts -/

theorem char_ascii_cases (P : Char → Prop) [DecidablePred P]
    (h : ∀ n : Fin 128, P (Char.ofNat n.val)) (c : Char) (hc : c.toNat < 128) : P c := by
  have h2 := h ⟨c.toNat, hc⟩
  rwa [Char.ofNat_toNat] at h2

theorem isWordChar_toNat_lt (c : Char) (h : isWordChar c = true) : c.toNat < 128 := by
  simp only [isWordChar, Bool.or_eq_true, decide_eq_true_eq] at h
  rcases h with ((h | h) | h) | h
  · omega
  · omega
  · omega
  · rw [h]; decide

theorem wordChar_facts (c : Char) (h : isWordChar c = true) :
    isWordChar (pyLowerChar c) = true ∧ pyLowerChar (pyLowerChar c) = pyLowerChar c ∧
    pyIsSpace c = false ∧ c ≠ '<' ∧ c ≠ ' ' := by
  have h128 := isWordChar_toNat_lt c h
  revert h
  exact char_ascii_cases
    (fun x => isWordChar x = true →
      isWordChar (pyLowerChar x) = true ∧ pyLowerChar (pyLowerChar x) = pyLowerChar x ∧
      pyIsSpace x = false ∧ x ≠ '<' ∧ x ≠ ' ')
    (by decide) c h128

theorem composePair_of_ascii (a c : Char) (hc : c.toNat < 128) : composePair a c = none := by
  have h1 : c ≠ chAcute := by intro h; rw [h] at hc; exact absurd hc (by decide)
  have h2 : c ≠ chGrave := by intro h; rw [h] at hc; exact absurd hc (by decide)
  have h3 : c ≠ chTilde := by intro h; rw [h] at hc; exact absurd hc (by decide)
  simp [composePair, h1, h2, h3]

/-! ### Identity and membership lemmas for the slug pipeline stages -/

theorem dropWhile_eq_self_of_not (p : Char → Bool) (s : List Char)
    (h : ∀ c ∈ s, p c = false) : s.dropWhile p = s := by
  cases s with
  | nil => rfl
  | cons c rest => simp [List.dropWhile_cons, h c (by simp)]

theorem pyStrip_eq_self (s : List Char) (h : ∀ c ∈ s, pyIsSpace c = false) :
    pyStrip s = s := by
  unfold pyStrip
  rw [dropWhile_eq_self_of_not _ _ h]
  rw [dropWhile_eq_self_of_not _ _ (fun c hc => h c (List.mem_reverse.mp hc))]
  exact List.reverse_reverse s

theorem mem_of_dropWhile (p : Char → Bool) (s : List Char) (c : Char)
    (h : c ∈ s.dropWhile p) : c ∈ s := by
  induction s with
  | nil => simp only [List.dropWhile_nil] at h; exact h
  | cons a rest ih =>
    rw [List.dropWhile_cons] at h
    by_cases hp : p a = true
    · rw [if_pos hp] at h
      exact List.mem_cons_of_mem a (ih h)
    · rwa [if_neg hp] at h

theorem mem_pyStrip (c : Char) (s : List Char) (h : c ∈ pyStrip s) : c ∈ s := by
  unfold pyStrip at h
  rw [List.mem_reverse] at h
  have h2 := mem_of_dropWhile _ _ _ h
  rw [List.mem_reverse] at h2
  exact mem_of_dropWhile _ _ _ h2

theorem map_eq_self_of_fix (f : Char → Char) (s : List Char)
    (h : ∀ c ∈ s, f c = c) : s.map f = s := by
  induction s with
  | nil => rfl
  | cons a rest ih =>
    simp only [List.map_cons, h a (by simp), ih fun c hc => h c (by simp [hc])]

theorem filter_eq_self_of_all (p : Char → Bool) (s : List Char)
    (h : ∀ c ∈ s, p c = true) : s.filter p = s := by
  induction s with
  | nil => rfl
  | cons a rest ih =>
    simp only [List.filter_cons, h a (by simp), if_true,
      ih fun c hc => h c (by simp [hc])]

theorem subWhitespace_eq_self (sep s : List Char) (h : ∀ c ∈ s, pyIsSpace c = false) :
    subWhitespace sep s = s := by
  induction s with
  | nil => rfl
  | cons a rest ih =>
    rw [subWhitespace, h a (by simp), ih fun c hc => h c (by simp [hc])]
    rfl

theorem mem_subWhitespace (sep s : List Char) (c : Char) (h : c ∈ subWhitespace sep s) :
    c ∈ sep ∨ ∃ d ∈ s, pyIsSpace d = false ∧ c = d := by
  induction s with
  | nil => simp [subWhitespace] at h
  | cons a rest ih =>
    rw [subWhitespace, List.mem_append] at h
    rcases h with h | h
    · by_cases hs : pyIsSpace a = true
      · rw [if_pos hs] at h
        exact Or.inl h
      · rw [if_neg hs] at h
        rw [List.mem_singleton] at h
        exact Or.inr ⟨a, by simp, by simp only [Bool.not_eq_true] at hs; exact hs, h⟩
    · rcases ih h with h2 | ⟨d, hd, hsp, hc⟩
      · exact Or.inl h2
      · exact Or.inr ⟨d, by simp [hd], hsp, hc⟩

theorem nfcAux_eq_cons (rest : List Char) (h : ∀ c ∈ rest, ∀ a, composePair a c = none) :
    ∀ a, nfcAux a rest = a :: rest := by
  induction rest with
  | nil => intro a; rfl
  | cons b rest ih =>
    intro a
    rw [nfcAux, h b (by simp) a, ih fun c hc a2 => h c (by simp [hc]) a2]

theorem nfc_eq_self (s : List Char) (h : ∀ c ∈ s, ∀ a, composePair a c = none) :
    nfc s = s := by
  cases s with
  | nil => rfl
  | cons a rest =>
    rw [nfc]
    exact nfcAux_eq_cons rest (fun c hc a2 => h c (by simp [hc]) a2) a

theorem removeTagsF_eq_self (f : Nat) (s : List Char) (h : ∀ c ∈ s, c ≠ '<') :
    removeTagsF f s = s := by
  induction f generalizing s with
  | zero => rfl
  | succ f ih =>
    cases s with
    | nil => rfl
    | cons a rest =>
      rw [removeTagsF, if_neg (h a (by simp)), ih rest fun c hc => h c (by simp [hc])]

theorem removeTags_eq_self (s : List Char) (h : ∀ c ∈ s, c ≠ '<') :
    removeTags s = s :=
  removeTagsF_eq_self _ _ h

/-! ### The changelog special case -/

theorem isDateStart_false_of_no_space (s : List Char) (h : ∀ c ∈ s, c ≠ ' ') :
    isDateStart s = false := by
  cases s with
  | nil => rfl
  | cons x rest =>
    cases rest with
    | nil => rfl
    | cons y rest2 =>
      cases rest2 with
      | nil => rfl
      | cons z rest3 => simp [isDateStart, h x (by simp)]

theorem changelogScan_none_of_no_space (s : List Char) (h : ∀ c ∈ s, c ≠ ' ') :
    ∀ acc, changelogScan acc s = none := by
  induction s with
  | nil => intro acc; rfl
  | cons c rest ih =>
    intro acc
    have hd : isDateStart (c :: rest) = false := isDateStart_false_of_no_space _ h
    rw [changelogScan, hd]
    by_cases hn : c = '\n'
    · simp [hn]
    · simp [hn, ih (fun x hx => h x (by simp [hx]))]

theorem changelogMatch_none_of_no_space (s : List Char) (h : ∀ c ∈ s, c ≠ ' ') :
    changelogMatch s = none :=
  changelogScan_none_of_no_space s h []

theorem isDateStart_false_of_snd (x y : Char) (t : List Char) (h : y ≠ '-') :
    isDateStart (x :: y :: t) = false := by
  cases t with
  | nil => rfl
  | cons z r => simp [isDateStart, h]

theorem isDateStart_shape (tail : List Char) (h : isDateStart tail = true) :
    ∃ t2, tail = ' ' :: '-' :: ' ' :: t2 := by
  cases tail with
  | nil => simp [isDateStart] at h
  | cons x rest =>
    cases rest with
    | nil => simp [isDateStart] at h
    | cons y rest2 =>
      cases rest2 with
      | nil => simp [isDateStart] at h
      | cons z rest3 =>
        simp only [isDateStart, Bool.and_eq_true, decide_eq_true_eq] at h
        obtain ⟨⟨⟨hx, hy⟩, hz⟩, _⟩ := h
        exact ⟨rest3, by rw [hx, hy, hz]⟩

theorem changelogScan_append (title : List Char) (h1 : ∀ c ∈ title, c ≠ '-')
    (h2 : ∀ c ∈ title, c ≠ '\n') (tail : List Char) (htail : isDateStart tail = true) :
    ∀ acc, changelogScan acc (title ++ tail) = some (acc.reverse ++ title) := by
  induction title with
  | nil =>
    intro acc
    obtain ⟨t2, rfl⟩ := isDateStart_shape tail htail
    rw [List.nil_append, changelogScan, if_pos htail, List.append_nil]
  | cons c title ih =>
    intro acc
    have hds : isDateStart (c :: (title ++ tail)) = false := by
      cases title with
      | nil =>
        obtain ⟨t2, rfl⟩ := isDateStart_shape tail htail
        exact isDateStart_false_of_snd _ _ _ (by decide)
      | cons c2 title2 =>
        exact isDateStart_false_of_snd _ _ _ (h1 c2 (by simp))
    have hn : c ≠ '\n' := h2 c (by simp)
    rw [List.cons_append, changelogScan, hds, if_neg hn]
    rw [ih (fun x hx => h1 x (by simp [hx])) (fun x hx => h2 x (by simp [hx])) (c :: acc)]
    simp

theorem changelogMatch_append (title tail : List Char) (h1 : ∀ c ∈ title, c ≠ '-')
    (h2 : ∀ c ∈ title, c ≠ '\n') (htail : isDateStart tail = true) :
    changelogMatch (title ++ tail) = some title := by
  have h := changelogScan_append title h1 h2 tail htail []
  simpa [changelogMatch] using h

theorem isDateStart_build (d1 d2 d3 d4 d5 d6 d7 d8 : Char) (rest : List Char)
    (q1 : pyIsDigit d1 = true) (q2 : pyIsDigit d2 = true) (q3 : pyIsDigit d3 = true)
    (q4 : pyIsDigit d4 = true) (q5 : pyIsDigit d5 = true) (q6 : pyIsDigit d6 = true)
    (q7 : pyIsDigit d7 = true) (q8 : pyIsDigit d8 = true) :
    isDateStart (' ' :: '-' :: ' ' :: d1 :: d2 :: d3 :: d4 :: '-' :: d5 :: d6 :: '-' ::
      d7 :: d8 :: rest) = true := by
  simp [isDateStart, isDate10, q1, q2, q3, q4, q5, q6, q7, q8]

/-! ### Claims about the slug generator -/

/-- C1, counterexample: on the text with two consecutive spaces the code
replaces each whitespace character by one separator copy, while the claim
collapses the run to a single copy, so the claimed pipeline disagrees with
the code. -/
theorem slug_run_collapse_counterexample :
    _make_slug (str "a  b") (str "-") = str "a--b" ∧
    slugSpecRuns (str "a  b") (str "-") = str "a-b" ∧
    _make_slug (str "a  b") (str "-") ≠ slugSpecRuns (str "a  b") (str "-") := by
  refine ⟨rfl, rfl, ?_⟩
  decide

/-- C1, amended: for every heading text outside the changelog special case
and every separator, the slug generator returns the text transformed by
Unicode composition, removal of tag-like substrings, removal of characters
other than word characters, hyphens and spaces, trimming, lowercasing, and
replacement of every single whitespace character by one copy of the
separator. -/
theorem slug_noncl_pipeline (text sep : List Char) (h : changelogMatch text = none) :
    _make_slug text sep = slugSpecEachChar text sep := by
  rw [_make_slug, h]
  rfl

/-- Witness for slug_noncl_pipeline at the example of the claim. -/
theorem slug_noncl_pipeline_witness :
    changelogMatch (str "Hello, World! 123") = none ∧
    _make_slug (str "Hello, World! 123") (str "-")
      = slugSpecEachChar (str "Hello, World! 123") (str "-") ∧
    _make_slug (str "Hello, World! 123") (str "-") = str "hello-world-123" :=
  ⟨rfl, slug_noncl_pipeline (str "Hello, World! 123") (str "-") rfl, rfl⟩

/-- C6: a heading of the shape title, space-hyphen-space, then an
eight-digit dash-separated date is reduced to the title alone, trimmed of
surrounding whitespace, with no lowercasing, character removal or
separator substitution; the title is constrained to contain no hyphen and
no newline so that the lazy anchored match cuts exactly there. -/
theorem changelog_slug_spec (sep title : List Char) (d1 d2 d3 d4 d5 d6 d7 d8 : Char)
    (h1 : ∀ c ∈ title, c ≠ '-') (h2 : ∀ c ∈ title, c ≠ '\n')
    (q1 : pyIsDigit d1 = true) (q2 : pyIsDigit d2 = true) (q3 : pyIsDigit d3 = true)
    (q4 : pyIsDigit d4 = true) (q5 : pyIsDigit d5 = true) (q6 : pyIsDigit d6 = true)
    (q7 : pyIsDigit d7 = true) (q8 : pyIsDigit d8 = true) :
    _make_slug (title ++ ' ' :: '-' :: ' ' :: d1 :: d2 :: d3 :: d4 :: '-' :: d5 :: d6 ::
      '-' :: d7 :: [d8]) sep = pyStrip title := by
  rw [_make_slug,
    changelogMatch_append title _ h1 h2
      (isDateStart_build d1 d2 d3 d4 d5 d6 d7 d8 [] q1 q2 q3 q4 q5 q6 q7 q8)]

/-- Witness for changelog_slug_spec at the example of the claim, with the
original case and inner spacing preserved. -/
theorem changelog_slug_spec_witness :
    (∀ c ∈ str "Release Notes", c ≠ '-') ∧ (∀ c ∈ str "Release Notes", c ≠ '\n') ∧
    _make_slug (str "Release Notes" ++ ' ' :: '-' :: ' ' :: '2' :: '0' :: '2' :: '4' ::
      '-' :: '0' :: '1' :: '-' :: '1' :: ['5']) (str "-") = pyStrip (str "Release Notes") ∧
    pyStrip (str "Release Notes") = str "Release Notes" :=
  ⟨by decide, by decide,
    changelog_slug_spec (str "-") (str "Release Notes") '2' '0' '2' '4' '0' '1' '1' '5'
      (by decide) (by decide) rfl rfl rfl rfl rfl rfl rfl rfl, rfl⟩

/-- C10: the date of the changelog special case need not end the heading:
whatever follows the date is discarded together with it, and only the
trimmed title is returned. -/
theorem changelog_nonsuffix_spec (sep title rest : List Char)
    (d1 d2 d3 d4 d5 d6 d7 d8 : Char)
    (h1 : ∀ c ∈ title, c ≠ '-') (h2 : ∀ c ∈ title, c ≠ '\n')
    (q1 : pyIsDigit d1 = true) (q2 : pyIsDigit d2 = true) (q3 : pyIsDigit d3 = true)
    (q4 : pyIsDigit d4 = true) (q5 : pyIsDigit d5 = true) (q6 : pyIsDigit d6 = true)
    (q7 : pyIsDigit d7 = true) (q8 : pyIsDigit d8 = true) :
    _make_slug (title ++ ' ' :: '-' :: ' ' :: d1 :: d2 :: d3 :: d4 :: '-' :: d5 :: d6 ::
      '-' :: d7 :: d8 :: rest) sep = pyStrip title := by
  rw [_make_slug,
    changelogMatch_append title _ h1 h2
      (isDateStart_build d1 d2 d3 d4 d5 d6 d7 d8 rest q1 q2 q3 q4 q5 q6 q7 q8)]

/-- Witness for changelog_nonsuffix_spec with trailing text after the
date. -/
theorem changelog_nonsuffix_spec_witness :
    (∀ c ∈ str "Release", c ≠ '-') ∧ (∀ c ∈ str "Release", c ≠ '\n') ∧
    _make_slug (str "Release" ++ ' ' :: '-' :: ' ' :: '2' :: '0' :: '2' :: '4' ::
      '-' :: '0' :: '1' :: '-' :: '1' :: '5' :: str " beta") (str "-")
      = pyStrip (str "Release") ∧
    pyStrip (str "Release") = str "Release" :=
  ⟨by decide, by decide,
    changelog_nonsuffix_spec (str "-") (str "Release") (str " beta")
      '2' '0' '2' '4' '0' '1' '1' '5'
      (by decide) (by decide) rfl rfl rfl rfl rfl rfl rfl rfl, rfl⟩

/-- C8, counterexample: with an empty separator the short slug does not
equal any rejoined word list, because str.split raises ValueError on an
empty separator. -/
theorem slug_short_empty_sep_counterexample :
    _make_slug_short (str "one two three four five six seven") [] = .error .valueError ∧
    _make_slug_short (str "one two three four five six seven") []
      ≠ .ok (List.intercalate []
          ((splitF [] (_make_slug (str "one two three four five six seven") []).length []
            (_make_slug (str "one two three four five six seven") [])).take 5)) := by
  refine ⟨rfl, ?_⟩
  intro h
  have h2 : (Except.error PyErr.valueError : Except PyErr (List Char)) = Except.ok _ := h
  exact Except.noConfusion h2

/-- C8, amended: for every heading text and every nonempty separator, the
short slug is the full slug split on the separator, truncated to its first
five words and rejoined with the separator. -/
theorem slug_short_spec (text sep : List Char) (h : sep ≠ []) :
    _make_slug_short text sep = .ok (shortSpec text sep) := by
  rw [_make_slug_short, pySplit, if_neg h]
  rfl

/-- Witness for slug_short_spec at the example of the claim. -/
theorem slug_short_spec_witness :
    (str "-" : List Char) ≠ [] ∧
    _make_slug_short (str "one two three four five six seven") (str "-")
      = .ok (shortSpec (str "one two three four five six seven") (str "-")) ∧
    _make_slug_short (str "one two three four five six seven") (str "-")
      = .ok (str "one-two-three-four-five") :=
  ⟨by decide, slug_short_spec (str "one two three four five six seven") (str "-") (by decide),
    rfl⟩

/-- C9, counterexample: with the separator bang, a slug the generator
produced (outside the changelog case, which its output does not match) is
changed by a second application, because the separator characters are
themselves removed as invalid. -/
theorem slug_idem_counterexample :
    _make_slug (str "a b") (str "!") = str "a!b" ∧
    changelogMatch (_make_slug (str "a b") (str "!")) = none ∧
    _make_slug (_make_slug (str "a b") (str "!")) (str "!")
      ≠ _make_slug (str "a b") (str "!") := by
  refine ⟨rfl, rfl, ?_⟩
  decide

/-- C9, amended: for separators whose characters are lowercase-stable word
characters or hyphens, re-slugifying a slug produced along the
non-changelog path returns it unchanged. -/
theorem slug_idem_amended (text sep : List Char)
    (hsep : ∀ c ∈ sep, (isWordChar c = true ∨ c = '-') ∧ pyLowerChar c = c)
    (hcl : changelogMatch text = none) :
    _make_slug (_make_slug text sep) sep = _make_slug text sep := by
  have hout0 : _make_slug text sep
      = subWhitespace sep (pyLower (pyStrip ((removeTags (nfc text)).filter keepSlugChar))) := by
    rw [_make_slug, hcl]
  rw [hout0]
  set out := subWhitespace sep (pyLower (pyStrip ((removeTags (nfc text)).filter keepSlugChar)))
    with hdef
  have hmem : ∀ c ∈ out, (isWordChar c = true ∨ c = '-') ∧ pyLowerChar c = c := by
    intro c hc
    rw [hdef] at hc
    rcases mem_subWhitespace sep _ c hc with h | ⟨d, hd, hdsp, rfl⟩
    · exact hsep c h
    · rcases List.mem_map.mp hd with ⟨e, he, rfl⟩
      have he2 := mem_pyStrip _ _ he
      have he3 := (List.mem_filter.mp he2).2
      simp only [keepSlugChar, Bool.or_eq_true, decide_eq_true_eq] at he3
      rcases he3 with (hw | hh) | hspc
      · have wf := wordChar_facts e hw
        exact ⟨Or.inl wf.1, wf.2.1⟩
      · rw [hh]
        exact ⟨Or.inr (by decide), by decide⟩
      · rw [hspc] at hdsp
        exact absurd hdsp (by decide)
  have hspc : ∀ c ∈ out, pyIsSpace c = false := by
    intro c hc
    rcases hmem c hc with ⟨hw | hh, _⟩
    · exact (wordChar_facts c hw).2.2.1
    · rw [hh]; decide
  have hnosp : ∀ c ∈ out, c ≠ ' ' := by
    intro c hc
    rcases hmem c hc with ⟨hw | hh, _⟩
    · exact (wordChar_facts c hw).2.2.2.2
    · rw [hh]; decide
  have hlt : ∀ c ∈ out, c ≠ '<' := by
    intro c hc
    rcases hmem c hc with ⟨hw | hh, _⟩
    · exact (wordChar_facts c hw).2.2.2.1
    · rw [hh]; decide
  have hcomp : ∀ c ∈ out, ∀ a, composePair a c = none := by
    intro c hc a
    rcases hmem c hc with ⟨hw | hh, _⟩
    · exact composePair_of_ascii a c (isWordChar_toNat_lt c hw)
    · rw [hh]
      exact composePair_of_ascii a '-' (by decide)
  have hkeep : ∀ c ∈ out, keepSlugChar c = true := by
    intro c hc
    rcases hmem c hc with ⟨hw | hh, _⟩
    · simp [keepSlugChar, hw]
    · rw [hh]; decide
  have hlow : ∀ c ∈ out, pyLowerChar c = c := fun c hc => (hmem c hc).2
  rw [_make_slug, changelogMatch_none_of_no_space out hnosp]
  rw [nfc_eq_self out hcomp, removeTags_eq_self out hlt,
    filter_eq_self_of_all _ out hkeep, pyStrip_eq_self out hspc]
  rw [show pyLower out = out from map_eq_self_of_fix _ out hlow]
  exact subWhitespace_eq_self sep out hspc

/-- Witness for slug_idem_amended with the hyphen separator. -/
theorem slug_idem_amended_witness :
    (∀ c ∈ (str "-"), (isWordChar c = true ∨ c = '-') ∧ pyLowerChar c = c) ∧
    changelogMatch (str "Hello World") = none ∧
    _make_slug (_make_slug (str "Hello World") (str "-")) (str "-")
      = _make_slug (str "Hello World") (str "-") :=
  ⟨by decide, rfl, slug_idem_amended (str "Hello World") (str "-") (by decide) rfl⟩

/-! ### Lemmas about resplit -/

theorem resplit_ne_nil (p : Char → Bool) (s : List Char) : resplit p s ≠ [] := by
  cases s with
  | nil => simp [resplit]
  | cons c rest =>
    rw [resplit]
    by_cases hp : p c = true
    · rw [if_pos hp]; simp
    · rw [if_neg hp]
      cases hrec : resplit p rest with
      | nil => simp
      | cons w ws => simp

theorem resplit_eq_single (p : Char → Bool) (s : List Char) (h : s.any p = false) :
    resplit p s = [s] := by
  induction s with
  | nil => rfl
  | cons c rest ih =>
    simp only [List.any_cons, Bool.or_eq_false_iff] at h
    rw [resplit, if_neg (by simp [h.1]), ih h.2]

theorem resplit_length_ge_two (p : Char → Bool) (s : List Char) (h : s.any p = true) :
    2 ≤ (resplit p s).length := by
  induction s with
  | nil => simp at h
  | cons c rest ih =>
    rw [resplit]
    by_cases hp : p c = true
    · rw [if_pos hp]
      have h1 : 0 < (resplit p rest).length := List.length_pos.mpr (resplit_ne_nil p rest)
      simp only [List.length_cons]
      omega
    · rw [if_neg hp]
      simp only [List.any_cons, Bool.or_eq_true] at h
      rcases h with h | h
      · exact absurd h hp
      · have h2 := ih h
        cases hrec : resplit p rest with
        | nil => exact absurd hrec (resplit_ne_nil p rest)
        | cons w ws =>
          rw [hrec] at h2
          simpa using h2

/-! ### Claims about error behaviour of the shortcode helpers -/

/-- C2, amended: the expander has two error kinds, not one.  An option or
setting argument with no delimiter makes the last-component unpacking
raise ValueError, while every delimited argument succeeds; an empty
version argument is accepted and yields a badge with no text span. -/
theorem shortcode_error_kinds :
    (∀ args : List Char,
      option args = if args.any isOptionDelim then .ok (optionMarkup args)
        else .error .valueError) ∧
    (∀ args : List Char,
      setting args = if args.any isSettingDelim then .ok (settingMarkup args)
        else .error .valueError) ∧
    (∀ (page : Page) (files : Files),
      _badge_for_version [] page files
        = .ok (_badge (str "[:material-tag-outline:](" ++ sq ++ str "Minimum nextest version"
            ++ sq ++ str ")") [] [])) := by
  refine ⟨?_, ?_, fun page files => rfl⟩
  · intro args
    by_cases h : args.any isOptionDelim = true
    · rw [if_pos h]
      have h2 : 2 ≤ (resplit isOptionDelim args).reverse.length := by
        rw [List.length_reverse]
        exact resplit_length_ge_two _ _ h
      simp only [option, optionMarkup]
      cases hrev : (resplit isOptionDelim args).reverse with
      | nil => rw [hrev] at h2; simp at h2
      | cons n rest =>
        cases rest with
        | nil => rw [hrev] at h2; simp at h2
        | cons m t => simp
    · rw [if_neg h]
      have hh : args.any isOptionDelim = false := by
        cases hx : args.any isOptionDelim with
        | false => rfl
        | true => exact absurd hx h
      rw [option, resplit_eq_single _ _ hh]
      rfl
  · intro args
    by_cases h : args.any isSettingDelim = true
    · rw [if_pos h]
      have h2 : 2 ≤ (resplit isSettingDelim args).reverse.length := by
        rw [List.length_reverse]
        exact resplit_length_ge_two _ _ h
      simp only [setting, settingMarkup]
      cases hrev : (resplit isSettingDelim args).reverse with
      | nil => rw [hrev] at h2; simp at h2
      | cons n rest =>
        cases rest with
        | nil => rw [hrev] at h2; simp at h2
        | cons m t => simp
    · rw [if_neg h]
      have hh : args.any isSettingDelim = false := by
        cases hx : args.any isSettingDelim with
        | false => rfl
        | true => exact absurd hx h
      rw [setting, resplit_eq_single _ _ hh]
      rfl

/-- C2, counterexample: a recognized option shortcode with a
delimiter-free argument does not succeed; it raises an unpacking
ValueError, a second error kind beside the unrecognized identifier. -/
theorem option_no_delim_counterexample :
    on_page_markdown (str "<!-- md:option foo -->") page0 files0 = .error .valueError ∧
    Except.error PyErr.valueError
      ≠ (.error (.runtimeError (str "Unknown shortcode: option")) :
          Except PyErr (List Char)) := by
  refine ⟨rfl, ?_⟩
  intro h
  exact PyErr.noConfusion (Except.error.inj h)

/-! ### Decomposition of the shortcode scan -/

theorem listStarts_decomp (t : List Char) : ∀ s, listStarts t s = true →
    s = t ++ s.drop t.length := by
  induction t with
  | nil => intro s _; simp
  | cons a ts ih =>
    intro s h
    cases s with
    | nil => simp [listStarts] at h
    | cons b bs =>
      simp only [listStarts, Bool.and_eq_true, decide_eq_true_eq] at h
      rw [← h.1]
      simpa using ih bs h.2

theorem findClose_decomp (s : List Char) : ∀ args r, findClose s = some (args, r) →
    s = args ++ ' ' :: '-' :: '-' :: '>' :: r := by
  induction s with
  | nil => intro args r h; simp [findClose] at h
  | cons c rest ih =>
    intro args r h
    rw [findClose] at h
    by_cases h1 : (c = ' ' && listStarts (str "-->") rest) = true
    · rw [if_pos h1] at h
      simp only [Option.some_inj, Prod.mk.injEq] at h
      obtain ⟨ha, hr⟩ := h
      simp only [Bool.and_eq_true, decide_eq_true_eq] at h1
      have hst := listStarts_decomp (str "-->") rest h1.2
      rw [← ha, ← hr, h1.1]
      rw [show (str "-->" : List Char) = '-' :: '-' :: '>' :: [] from rfl] at hst
      simpa using hst
    · rw [if_neg h1] at h
      by_cases h2 : c = '\n'
      · rw [if_pos h2] at h
        exact absurd h (by simp)
      · rw [if_neg h2] at h
        cases hrec : findClose rest with
        | none => rw [hrec] at h; simp at h
        | some p =>
          obtain ⟨args2, r2⟩ := p
          rw [hrec] at h
          simp only [Option.some_inj, Prod.mk.injEq] at h
          obtain ⟨ha, hr⟩ := h
          rw [← ha, ← hr]
          simpa using ih args2 r2 hrec

theorem matchShortcodeAt_nil : matchShortcodeAt [] = none := rfl

theorem matchShortcodeAt_decomp (s : List Char) (m : SMatch) (rest : List Char)
    (h : matchShortcodeAt s = some (m, rest)) :
    s = m.raw ++ rest ∧ m.raw ≠ [] := by
  rw [matchShortcodeAt] at h
  by_cases hh : headerMD s = true
  · rw [if_pos hh] at h
    by_cases ht : (s.drop 8).takeWhile isWordChar = []
    · rw [if_pos ht] at h
      exact absurd h (by simp)
    · rw [if_neg ht] at h
      cases hfc : findClose ((s.drop 8).dropWhile isWordChar) with
      | none => rw [hfc] at h; exact absurd h (by simp)
      | some p =>
        obtain ⟨args, r⟩ := p
        rw [hfc] at h
        simp only [Option.some_inj, Prod.mk.injEq] at h
        obtain ⟨hm, hr⟩ := h
        have hfd := findClose_decomp _ _ _ hfc
        have hne : s ≠ [] := by
          intro hs
          rw [hs] at hh
          exact absurd hh (by decide)
        constructor
        · rw [← hm, ← hr]
          conv_lhs => rw [← List.take_append_drop 8 s]
          conv_lhs => rw [← List.takeWhile_append_dropWhile isWordChar (s.drop 8)]
          rw [hfd]
          simp [List.append_assoc]
          rfl
        · rw [← hm]
          simp only [ne_eq, List.append_eq_nil]
          intro hcon
          obtain ⟨⟨⟨htk, _⟩, _⟩, _⟩ := hcon
          cases hs : s with
          | nil => exact hne hs
          | cons a as =>
            rw [hs] at htk
            simp at htk
  · rw [if_neg hh] at h
    exact absurd h (by simp)

theorem firstMatch_decomp (s : List Char) : ∀ pre m rest,
    firstMatch s = some (pre, m, rest) → s = pre ++ m.raw ++ rest ∧ m.raw ≠ [] := by
  induction s with
  | nil => intro pre m rest h; simp [firstMatch] at h
  | cons c cs ih =>
    intro pre m rest h
    rw [firstMatch] at h
    cases hma : matchShortcodeAt (c :: cs) with
    | some p =>
      obtain ⟨m2, after⟩ := p
      rw [hma] at h
      simp only [Option.some_inj, Prod.mk.injEq] at h
      obtain ⟨hp, hm, hr⟩ := h
      obtain ⟨hd1, hd2⟩ := matchShortcodeAt_decomp _ _ _ hma
      rw [← hp, ← hm, ← hr]
      exact ⟨by simpa using hd1, hd2⟩
    | none =>
      rw [hma] at h
      cases hfm : firstMatch cs with
      | none => rw [hfm] at h; simp at h
      | some q =>
        obtain ⟨p2, m2, r2⟩ := q
        rw [hfm] at h
        simp only [Option.some_inj, Prod.mk.injEq] at h
        obtain ⟨hp, hm, hr⟩ := h
        obtain ⟨hd1, hd2⟩ := ih p2 m2 r2 hfm
        rw [← hp, ← hm, ← hr]
        exact ⟨by simp [hd1], hd2⟩

theorem firstMatch_rest_lt (s pre : List Char) (m : SMatch) (rest : List Char)
    (h : firstMatch s = some (pre, m, rest)) : rest.length < s.length := by
  obtain ⟨hs, hraw⟩ := firstMatch_decomp s pre m rest h
  rw [hs]
  have h1 : 0 < m.raw.length := List.length_pos.mpr hraw
  simp only [List.append_assoc, List.length_append]
  omega

theorem firstMatch_head (s : List Char) (m : SMatch) (after : List Char)
    (h : matchShortcodeAt s = some (m, after)) :
    firstMatch s = some ([], m, after) := by
  have hne : s ≠ [] := by
    intro hs
    rw [hs, matchShortcodeAt_nil] at h
    exact Option.noConfusion h
  obtain ⟨c, cs, rfl⟩ := List.exists_cons_of_ne_nil hne
  rw [firstMatch, h]

theorem expand_error_first (page : Page) (files : Files) (s pre : List Char) (m : SMatch)
    (rest : List Char) (h : firstMatch s = some (pre, m, rest)) (e : PyErr)
    (hrep : replace page files m.tag m.args = .error e) :
    on_page_markdown s page files = .error e := by
  have hne : s ≠ [] := by
    intro hs
    rw [hs] at h
    simp [firstMatch] at h
  obtain ⟨c, cs, rfl⟩ := List.exists_cons_of_ne_nil hne
  rw [on_page_markdown, List.length_cons, expandF, h]
  simp [hrep]

/-! ### The substitution loop against its decomposition -/

theorem expandF_eq_decomp (page : Page) (files : Files) :
    ∀ (f : Nat) (s : List Char), s.length ≤ f →
      expandF page files f s =
        match mapExcept (replacePiece page files) (decompF f s).1 with
        | .error e => .error e
        | .ok pieces => .ok (pieces.flatten ++ (decompF f s).2) := by
  intro f
  induction f with
  | zero =>
    intro s hs
    rw [List.eq_nil_of_length_eq_zero (Nat.le_zero.mp hs)]
    rfl
  | succ f ih =>
    intro s hs
    rw [expandF, decompF]
    cases hfm : firstMatch s with
    | none => simp [mapExcept]
    | some t =>
      obtain ⟨pre, m, rest⟩ := t
      have hlt := firstMatch_rest_lt s pre m rest hfm
      have hrest : rest.length ≤ f := by omega
      rw [mapExcept]
      simp only [replacePiece]
      cases hrep : replace page files m.tag m.args with
      | error e => rfl
      | ok rep =>
        rw [ih rest hrest]
        cases hmap : mapExcept (replacePiece page files) (decompF f rest).1 with
        | error e => rfl
        | ok pieces => simp [List.append_assoc]

theorem decompF_recon :
    ∀ (f : Nat) (s : List Char), s.length ≤ f →
      ((decompF f s).1.map (fun pm => pm.1 ++ pm.2.raw)).flatten ++ (decompF f s).2 = s := by
  intro f
  induction f with
  | zero =>
    intro s hs
    rw [List.eq_nil_of_length_eq_zero (Nat.le_zero.mp hs)]
    rfl
  | succ f ih =>
    intro s hs
    rw [decompF]
    cases hfm : firstMatch s with
    | none => simp
    | some t =>
      obtain ⟨pre, m, rest⟩ := t
      obtain ⟨hs2, _⟩ := firstMatch_decomp s pre m rest hfm
      have hlt := firstMatch_rest_lt s pre m rest hfm
      have hrest : rest.length ≤ f := by omega
      simp only [List.map_cons, List.flatten_cons, List.append_assoc]
      rw [ih rest hrest]
      rw [hs2, List.append_assoc]

/-! ### Claims about the shortcode expander -/

/-- C3: when the leftmost shortcode match of a page has an unknown tag, or
a flag tag with an unknown first token, the whole expansion fails with a
RuntimeError carrying that identifier, whatever the rest of the page
holds; no transformed page is produced. -/
theorem unknown_shortcode_first_match (page : Page) (files : Files)
    (s pre : List Char) (m : SMatch) (rest : List Char)
    (h : firstMatch s = some (pre, m, rest)) :
    (isKnownTag m.tag = false →
      on_page_markdown s page files
        = .error (.runtimeError (str "Unknown shortcode: " ++ m.tag))) ∧
    (m.tag = str "flag" →
      isKnownFlagType ((pyStrip m.args).takeWhile (fun c => c ≠ ' ')) = false →
      on_page_markdown s page files
        = .error (.runtimeError (str "Unknown type: "
            ++ (pyStrip m.args).takeWhile (fun c => c ≠ ' ')))) := by
  constructor
  · intro hk
    refine expand_error_first page files s pre m rest h _ ?_
    simp only [isKnownTag, Bool.or_eq_false_iff, decide_eq_false_iff_not] at hk
    obtain ⟨⟨⟨h1, h2⟩, h3⟩, h4⟩ := hk
    simp [replace, h1, h2, h3, h4]
  · intro hflag hk
    refine expand_error_first page files s pre m rest h _ ?_
    simp only [decide_not] at hk ⊢
    simp only [isKnownFlagType, Bool.or_eq_false_iff, decide_eq_false_iff_not] at hk
    obtain ⟨⟨⟨⟨k1, k2⟩, k3⟩, k4⟩, k5⟩ := hk
    simp [replace, flag, hflag, k1, k2, k3, k4, k5,
      show (str "flag" : List Char) ≠ str "version" from by decide]

/-- Witness for unknown_shortcode_first_match: an unknown tag aborts the
page before a valid later shortcode is reached, and an unknown flag
subtype does the same. -/
theorem unknown_shortcode_first_match_witness :
    on_page_markdown (str "x <!-- md:unknowntag foo --> <!-- md:version 1 -->") page0 files0
      = .error (.runtimeError (str "Unknown shortcode: " ++ str "unknowntag")) ∧
    on_page_markdown (str "<!-- md:flag bogus -->") page0 files0
      = .error (.runtimeError (str "Unknown type: "
          ++ (pyStrip (str " bogus")).takeWhile (fun c => c ≠ ' '))) :=
  ⟨(unknown_shortcode_first_match page0 files0
      (str "x <!-- md:unknowntag foo --> <!-- md:version 1 -->") (str "x ")
      ⟨str "<!-- md:unknowntag foo -->", str "unknowntag", str " foo"⟩
      (str " <!-- md:version 1 -->") rfl).1 (by decide),
   (unknown_shortcode_first_match page0 files0 (str "<!-- md:flag bogus -->") []
      ⟨str "<!-- md:flag bogus -->", str "flag", str " bogus"⟩ [] rfl).2 rfl (by decide)⟩

theorem takeWhile_append_not (p : Char → Bool) (w : List Char) (a : Char) (t : List Char)
    (hw : ∀ c ∈ w, p c = true) (ha : p a = false) :
    (w ++ a :: t).takeWhile p = w ∧ (w ++ a :: t).dropWhile p = a :: t := by
  induction w with
  | nil =>
    constructor
    · simp [List.takeWhile_cons, ha]
    · simp [List.dropWhile_cons, ha]
  | cons b bs ih =>
    obtain ⟨ih1, ih2⟩ := ih fun c hc => hw c (by simp [hc])
    constructor
    · simp [List.takeWhile_cons, hw b (by simp), ih1]
    · simp [List.dropWhile_cons, hw b (by simp), ih2]

/-- C4, amended: the regex does match a supported tag written in any case
mixture (the shortcode is recognized as a shortcode), but dispatch
compares the captured tag case-sensitively, so any tag text that is not
one of the four lowercase spellings, uppercase variants included, raises
the unknown-shortcode error instead of expanding. -/
theorem case_insensitive_match_case_sensitive_dispatch (page : Page) (files : Files)
    (w : List Char) (hne : w ≠ []) (hw : ∀ c ∈ w, isWordChar c = true) :
    matchShortcodeAt (str "<!-- md:" ++ w ++ str " -->")
      = some (⟨str "<!-- md:" ++ w ++ str " -->", w, []⟩, []) ∧
    (isKnownTag w = false →
      on_page_markdown (str "<!-- md:" ++ w ++ str " -->") page files
        = .error (.runtimeError (str "Unknown shortcode: " ++ w))) := by
  have hhd : headerMD (str "<!-- md:" ++ w ++ str " -->") = true := rfl
  have hd8 : (str "<!-- md:" ++ w ++ str " -->").drop 8 = w ++ ' ' :: '-' :: '-' :: '>' :: [] := by
    rw [show (str " -->" : List Char) = ' ' :: '-' :: '-' :: '>' :: [] from rfl]
    rfl
  have ht8 : (str "<!-- md:" ++ w ++ str " -->").take 8 = str "<!-- md:" := rfl
  have htw := takeWhile_append_not isWordChar w ' ' ('-' :: '-' :: '>' :: []) hw (by decide)
  have hmt : matchShortcodeAt (str "<!-- md:" ++ w ++ str " -->")
      = some (⟨str "<!-- md:" ++ w ++ str " -->", w, []⟩, []) := by
    rw [matchShortcodeAt, if_pos hhd, hd8, htw.1, htw.2, if_neg hne]
    rw [show findClose (' ' :: '-' :: '-' :: '>' :: []) = some ([], []) from rfl]
    rw [ht8]
    simp [List.append_assoc]
  refine ⟨hmt, fun hk => ?_⟩
  refine expand_error_first page files _ []
    ⟨str "<!-- md:" ++ w ++ str " -->", w, []⟩ [] (firstMatch_head _ _ _ hmt) _ ?_
  simp only [isKnownTag, Bool.or_eq_false_iff, decide_eq_false_iff_not] at hk
  obtain ⟨⟨⟨h1, h2⟩, h3⟩, h4⟩ := hk
  simp [replace, h1, h2, h3, h4]

/-- Witness for case_insensitive_match_case_sensitive_dispatch at the
uppercase VERSION tag. -/
theorem case_dispatch_witness :
    (str "VERSION" : List Char) ≠ [] ∧ (∀ c ∈ str "VERSION", isWordChar c = true) ∧
    matchShortcodeAt (str "<!-- md:" ++ str "VERSION" ++ str " -->")
      = some (⟨str "<!-- md:" ++ str "VERSION" ++ str " -->", str "VERSION", []⟩, []) ∧
    on_page_markdown (str "<!-- md:" ++ str "VERSION" ++ str " -->") page0 files0
      = .error (.runtimeError (str "Unknown shortcode: " ++ str "VERSION")) := by
  have h := case_insensitive_match_case_sensitive_dispatch page0 files0 (str "VERSION")
    (by decide) (by decide)
  exact ⟨by decide, by decide, h.1, h.2 (by decide)⟩

/-- C4, counterexample: the uppercase spelling of a supported tag is not
expanded into markup; it is treated as an unknown shortcode and the page
render fails. -/
theorem uppercase_tag_counterexample :
    on_page_markdown (str "<!-- md:VERSION 1.0 -->") page0 files0
      = .error (.runtimeError (str "Unknown shortcode: VERSION")) := rfl

/-- C7: a successful expansion decomposes the page into the gaps around
the leftmost nonoverlapping matches; the output is exactly the same gaps
in the same order with each matched comment replaced by its generated
markup, and the gaps and matches reassemble the input byte for byte. -/
theorem expansion_frame (page : Page) (files : Files) (s out : List Char)
    (h : on_page_markdown s page files = .ok out) :
    ((decomp s).1.map (fun pm => pm.1 ++ pm.2.raw)).flatten ++ (decomp s).2 = s ∧
    ∃ pieces, mapExcept (replacePiece page files) (decomp s).1 = .ok pieces ∧
      out = pieces.flatten ++ (decomp s).2 := by
  constructor
  · exact decompF_recon s.length s (le_refl _)
  · rw [on_page_markdown, expandF_eq_decomp page files s.length s (le_refl _)] at h
    rw [decomp]
    cases hmap : mapExcept (replacePiece page files) (decompF s.length s).1 with
    | error e =>
      rw [hmap] at h
      exact absurd h (by simp)
    | ok pieces =>
      rw [hmap] at h
      simp only [Except.ok.injEq] at h
      exact ⟨pieces, rfl, h.symm⟩

/-- Witness for expansion_frame on a page with one flag shortcode between
two text gaps. -/
theorem expansion_frame_witness :
    ((decomp (str "A <!-- md:flag experimental --> B")).1.map
        (fun pm => pm.1 ++ pm.2.raw)).flatten
      ++ (decomp (str "A <!-- md:flag experimental --> B")).2
      = str "A <!-- md:flag experimental --> B" ∧
    ∃ pieces, mapExcept (replacePiece page0 files0)
        (decomp (str "A <!-- md:flag experimental --> B")).1 = .ok pieces ∧
      str "A <span class=\"mdx-badge\"><span class=\"mdx-badge__icon\">:material-flask-outline:</span></span> B"
        = pieces.flatten ++ (decomp (str "A <!-- md:flag experimental --> B")).2 :=
  expansion_frame page0 files0 (str "A <!-- md:flag experimental --> B")
    (str "A <span class=\"mdx-badge\"><span class=\"mdx-badge__icon\">:material-flask-outline:</span></span> B")
    rfl

theorem resplit_hash_append (base t : List Char) (hb : ∀ c ∈ base, c ≠ '#') :
    resplit (fun c => c = '#') (base ++ '#' :: t)
      = base :: resplit (fun c => c = '#') t := by
  induction base with
  | nil => simp [resplit]
  | cons b bs ih =>
    rw [List.cons_append, resplit, if_neg (by simp [hb b (by simp)])]
    rw [ih fun c hc => hb c (by simp [hc])]

/-- C5: the path resolver splits one trailing anchor off the target path,
resolves the base through the host lookup into a page-relative path whose
first segment is always discarded, and reattaches the anchor with a hash
exactly when the anchor is nonempty; a version badge therefore links its
text span to the changelog anchor of the version, first segment
stripped. -/
theorem resolve_path_spec (page : Page) (files : Files) (base anchor : List Char) (f : File)
    (hb : ∀ c ∈ base, c ≠ '#') (ha : ∀ c ∈ anchor, c ≠ '#')
    (hf : files.get_file_from_path base = some f) :
    (_resolve_path (base ++ (if anchor = [] then [] else '#' :: anchor)) page files
      = .ok (if anchor = [] then _resolve f page
             else _resolve f page ++ '#' :: anchor)) ∧
    (_resolve f page = List.intercalate (str "/")
      ((splitSlash (relpath f.src_uri page.file.src_uri)).drop 1)) ∧
    (_badge_for_version (str "0.9.0") page0 files0
      = .ok (str "<span class=\"mdx-badge\"><span class=\"mdx-badge__icon\">[:material-tag-outline:]("
          ++ sq ++ str "Minimum nextest version" ++ sq
          ++ str ")</span><span class=\"mdx-badge__text\">[0.9.0](changelog.md#0.9.0)</span></span>")) := by
  refine ⟨?_, rfl, rfl⟩
  by_cases hae : anchor = []
  · rw [if_pos hae, if_pos hae, List.append_nil]
    rw [_resolve_path, resplit_hash_append base [] hb]
    simp [resplit, hf]
  · rw [if_neg hae, if_neg hae]
    rw [_resolve_path]
    rw [show (base ++ '#' :: anchor) ++ ['#'] = base ++ '#' :: (anchor ++ ['#'])
      from by simp]
    rw [resplit_hash_append base _ hb]
    rw [show (anchor ++ ['#'] : List Char) = anchor ++ '#' :: [] from rfl]
    rw [resplit_hash_append anchor [] ha]
    simp [resplit, hf, hae]

/-- Witness for resolve_path_spec resolving the changelog anchor of
version 0.9.0 from the root index page. -/
theorem resolve_path_spec_witness :
    (∀ c ∈ str "changelog.md", c ≠ '#') ∧ (∀ c ∈ str "0.9.0", c ≠ '#') ∧
    files0.get_file_from_path (str "changelog.md") = some file_changelog ∧
    _resolve_path (str "changelog.md"
        ++ (if (str "0.9.0" : List Char) = [] then [] else '#' :: str "0.9.0")) page0 files0
      = .ok (if (str "0.9.0" : List Char) = [] then _resolve file_changelog page0
             else _resolve file_changelog page0 ++ '#' :: str "0.9.0") :=
  ⟨by decide, by decide, rfl,
    (resolve_path_spec page0 files0 (str "changelog.md") (str "0.9.0") file_changelog
      (by decide) (by decide) rfl).1⟩

end NextestSite
